import Mathlib

/-!
Personal Finance Manager — verification of the import & tagging core.

Shallow embedding of the repository's data model and operations:

* the SQL schema (`database/init.sql`, migration 002): the `transaction_tags`
  link table with its `UNIQUE(transaction_id, tag_id)` constraint, the
  `tags.usage_count` column, and the `update_tag_usage_count` trigger that
  fires `AFTER INSERT OR DELETE ON transaction_tags FOR EACH ROW`;
* the import pipeline (batches with `UNIQUE(user_id, file_hash)`,
  row-level de-duplication on `transactions.transaction_hash UNIQUE`);
* the auto-tagging rule engine with its `tagging_rule_applications` audit
  table;
* merchant/store enrichment of transactions;
* the tag-creation handler of the frontend `TagsPage`.

The backend service layer (FastAPI `services/` and `api/v1/` modules) is not
part of the sources at hand; wherever an operation's body lives there, the
definition below is modelled from the specification's words and says so in
its doc comment.  Identifiers (UUIDs) are modelled as naturals, SQL
`NUMERIC(3,2)` confidences as integers in hundredths (`90` stands for
`0.90`; `NUMERIC(3,2)` is exactly the signed hundredths grid), strings as
Lean strings or as lists of Unicode code points.
-/

namespace FinanceManager

/-! ## Tag ledger state

`transaction_tags` rows (`init.sql` lines 167–175) carry the link's
transaction, tag, provenance source and optional confidence; `tags` rows
(lines 131–143) carry `usage_count INTEGER DEFAULT 0`.  The ledger state
below keeps the link table as a list of rows and the usage counters as a
total map from tag id to an integer (SQL `INTEGER` is signed, so the
counter itself can in principle go negative — ruling that out is claim C5's
business, not the type's). -/

/-- Provenance of a transaction–tag link:
`COMMENT ON COLUMN transaction_tags.source IS 'manual, auto_rule,
auto_merchant, auto_nlp'`. -/
inductive TagSource where
  | manual
  | auto_rule
  | auto_merchant
  | auto_nlp
deriving DecidableEq, Repr

/-- One row of `transaction_tags` (`init.sql` 167–175): transaction id,
tag id, provenance source, optional `NUMERIC(3,2)` confidence in
hundredths. -/
structure TagLink where
  transaction_id : Nat
  tag_id : Nat
  source : TagSource
  confidence : Option ℤ
deriving DecidableEq, Repr

/-- The tagging-relevant database state: the `transaction_tags` table and
the `tags.usage_count` column (as a total map; tags absent from the table
are read as the schema default `0`). -/
structure LedgerState where
  links : List TagLink
  usage : Nat → ℤ

/-- The initial state: no links, every tag at the schema default
`usage_count INTEGER DEFAULT 0`. -/
def LedgerState.initial : LedgerState :=
  { links := [], usage := fun _ => 0 }

/-- Does a `transaction_tags` row for this (transaction, tag) pair exist?
This is the existence check behind the `UNIQUE(transaction_id, tag_id)`
constraint (`init.sql` line 174). -/
def linkPresent (s : LedgerState) (tx tag : Nat) : Bool :=
  s.links.any fun l => l.transaction_id == tx && l.tag_id == tag

/-- Number of `transaction_tags` rows for a given (transaction, tag) pair. -/
def pairCount (s : LedgerState) (tx tag : Nat) : Nat :=
  s.links.countP fun l => l.transaction_id == tx && l.tag_id == tag

/-- Number of `transaction_tags` rows referencing a given tag — the value
`usage_count` is supposed to track. -/
def tagCount (s : LedgerState) (tag : Nat) : Nat :=
  s.links.countP fun l => l.tag_id == tag

/-- The `INSERT` arm of the `update_tag_usage_count` trigger (`init.sql`
244–245): `UPDATE tags SET usage_count = usage_count + 1 WHERE id =
NEW.tag_id`, fired `AFTER INSERT … FOR EACH ROW`. -/
def usageAfterInsert (usage : Nat → ℤ) (tagId : Nat) : Nat → ℤ :=
  fun t => if t = tagId then usage t + 1 else usage t

/-- The `DELETE` arm of the `update_tag_usage_count` trigger (`init.sql`
246–247): `UPDATE tags SET usage_count = usage_count - 1 WHERE id =
OLD.tag_id`, fired once per deleted row (`FOR EACH ROW`), hence the
decrement by the number of rows the `DELETE` removed. -/
def usageAfterDelete (usage : Nat → ℤ) (tagId : Nat) (rowsDeleted : Nat) : Nat → ℤ :=
  fun t => if t = tagId then usage t - rowsDeleted else usage t

/-- Modelled from the spec (§4.5 Tag Ledger; the backend `tags` service is
not among the sources): `applyTag(transaction, tag, source, confidence)`
creates the link if absent or is a no-op if present.  The insert fires the
`update_tag_usage_count` trigger's `INSERT` arm. -/
def applyTag (s : LedgerState) (tx tag : Nat) (src : TagSource)
    (conf : Option ℤ) : LedgerState :=
  if linkPresent s tx tag then s
  else
    { links := ⟨tx, tag, src, conf⟩ :: s.links
      usage := usageAfterInsert s.usage tag }

/-- Modelled from the spec (§4.5 Tag Ledger; the backend `tags` service is
not among the sources): `removeTag(transaction, tag)` deletes the link if
present or is a no-op if absent.  The delete removes every row matching the
pair and fires the trigger's `DELETE` arm once per removed row. -/
def removeTag (s : LedgerState) (tx tag : Nat) : LedgerState :=
  if linkPresent s tx tag then
    { links := s.links.filter fun l => !(l.transaction_id == tx && l.tag_id == tag)
      usage := usageAfterDelete s.usage tag (pairCount s tx tag) }
  else s

/-- One Tag Ledger mutation: the two entry points of spec §4.5. -/
inductive LedgerOp where
  | apply (tx tag : Nat) (src : TagSource) (conf : Option ℤ)
  | remove (tx tag : Nat)
deriving DecidableEq, Repr

/-- Execute one ledger operation. -/
def stepLedger (s : LedgerState) : LedgerOp → LedgerState
  | .apply tx tag src conf => applyTag s tx tag src conf
  | .remove tx tag => removeTag s tx tag

/-- Execute a sequence of ledger operations, oldest first. -/
def runLedger (s : LedgerState) (ops : List LedgerOp) : LedgerState :=
  ops.foldl stepLedger s

/-- The §3 usage-count invariant: every tag's `usage_count` equals the
number of `transaction_tags` rows referencing it. -/
def usageInv (s : LedgerState) : Prop :=
  ∀ tag, s.usage tag = (tagCount s tag : ℤ)

/-- The `UNIQUE(transaction_id, tag_id)` constraint as a state predicate:
at most one link per (transaction, tag) pair. -/
def uniqPairs (s : LedgerState) : Prop :=
  ∀ tx tag, pairCount s tx tag ≤ 1

/-- A link is confidence-well-formed: with automatic provenance its
confidence is recorded and lies in `[0,1]` (`0 ≤ c ≤ 100` hundredths). -/
def confOK (l : TagLink) : Bool :=
  l.source == .manual ||
    (match l.confidence with
     | some c => decide (0 ≤ c) && decide (c ≤ 100)
     | none => false)

/-- Every stored link is confidence-well-formed. -/
def confInv (s : LedgerState) : Bool :=
  s.links.all confOK

/-- A ledger call is confidence-well-formed: an `applyTag` with automatic
provenance passes a confidence in `[0,1]`, as spec §3/§4.4 require of the
auto-tagging engine. -/
def opConfOK : LedgerOp → Bool
  | .apply _ _ src conf =>
      src == .manual ||
        (match conf with
         | some c => decide (0 ≤ c) && decide (c ≤ 100)
         | none => false)
  | .remove _ _ => true

/-! ## Import pipeline

The `transactions` table (`init.sql` 88–117) stores one row per unique
financial movement with `transaction_hash VARCHAR(64) UNIQUE NOT NULL`
(`COMMENT`: SHA256 hash for duplicate detection); `import_batches`
(`init.sql` 31–48) records one row per upload with imported/duplicate
counters, a status, and `UNIQUE(user_id, file_hash)`.  The orchestrator and
normalizer bodies live in the backend (`csv_processor` / `imports`), which
is not among the sources, so they are modelled from spec §4.2, §7 and the
§8 scenarios.  Statement parsing is out of the model: the orchestrator is
given the parser's output rows alongside the raw bytes. -/

/-- One parsed statement row, carrying the `transactions` columns the
normalizer fills: the §3 immutable identity fields (dates, operation type,
title, counterparty, account, amount) plus the non-identity payload
(running balance, currency).  Amounts are fixed-point `NUMERIC(15,2)` in
hundredths. -/
structure RawRow where
  booking_date : String
  transaction_date : String
  operation_type : String
  title : String
  sender_recipient : String
  account_number : String
  amount : ℤ
  balance_after : Option ℤ
  currency : String
deriving DecidableEq, Repr

/-- The §3 immutable identity fields of a row: date(s), operation type,
title, amount, counterparty/account.  `balance_after` and `currency` are
not identity. -/
def identityFields (r : RawRow) :
    String × String × String × String × String × String × ℤ :=
  (r.booking_date, r.transaction_date, r.operation_type, r.title,
    r.sender_recipient, r.account_number, r.amount)

/-- Canonical serialization of an identity-field tuple, fields joined by a
separator. -/
def canonicalOfFields : String × String × String × String × String × String × ℤ → String
  | (bd, td, ot, ti, sr, an, amt) =>
      ("|").intercalate [bd, td, ot, ti, sr, an, toString amt]

/-- Modelled from the spec (§4.2; the backend normalizer is not among the
sources): the canonical text a transaction's content hash is computed
over — a deterministic serialization of exactly the §3 identity fields. -/
def canonicalIdentity (r : RawRow) : String :=
  canonicalOfFields (identityFields r)

/-- Modelled from the spec: a fixed-size message digest over a string,
standing in for hex-encoded SHA-256 — a deterministic function of the
input, reduced modulo the fixed digest size. -/
def strDigest (s : String) : Nat :=
  s.data.foldl (fun h c => (h * 131 + c.toNat) % 2 ^ 256) 5381

/-- The transaction content hash: digest of the canonical identity
serialization (`transactions.transaction_hash`). -/
def txHash (r : RawRow) : Nat :=
  strDigest (canonicalIdentity r)

/-- The whole-file content hash (`import_batches.file_hash`): digest of the
raw file bytes. -/
def fileHash (bytes : List Nat) : Nat :=
  bytes.foldl (fun h b => (h * 131 + b) % 2 ^ 256) 5381

/-- One row of `import_batches` (`init.sql` 31–48), the fields the claims
speak about. -/
structure ImportBatch where
  user_id : Nat
  file_name : String
  file_hash : Nat
  transactions_imported : Nat
  duplicates_skipped : Nat
  import_status : String
deriving DecidableEq, Repr

/-- One stored row of `transactions`: owning identity, content hash, and
the row it was normalized from. -/
structure StoredTx where
  user_id : Nat
  transaction_hash : Nat
  row : RawRow
deriving DecidableEq, Repr

/-- The import-relevant database state: the `import_batches` and
`transactions` tables. -/
structure ImportState where
  batches : List ImportBatch
  txs : List StoredTx
deriving DecidableEq, Repr

/-- The empty database. -/
def ImportState.initial : ImportState :=
  { batches := [], txs := [] }

/-- Is a transaction content hash already stored?
(`transactions.transaction_hash UNIQUE` is the sole de-duplication key.) -/
def hashStored (st : ImportState) (h : Nat) : Bool :=
  st.txs.any fun t => t.transaction_hash == h

/-- Modelled from the spec (§4.2; backend not among the sources): process
one parsed row against the accumulated `(state, imported, duplicates)` —
if the row's content hash is present, increment the duplicate counter and
discard the row; if absent, persist it and increment the imported
counter. -/
def importRow (user : Nat) (acc : ImportState × Nat × Nat) (r : RawRow) :
    ImportState × Nat × Nat :=
  if hashStored acc.1 (txHash r) then (acc.1, acc.2.1, acc.2.2 + 1)
  else
    ({ acc.1 with txs := ⟨user, txHash r, r⟩ :: acc.1.txs },
      acc.2.1 + 1, acc.2.2)

/-- Process a file's rows in order, starting both batch counters at 0. -/
def importRows (user : Nat) (st : ImportState) (rows : List RawRow) :
    ImportState × Nat × Nat :=
  rows.foldl (importRow user) (st, 0, 0)

/-- The batch lookup behind the `UNIQUE(user_id, file_hash)` short-circuit:
an earlier batch of this identity with this file hash. -/
def findBatch (st : ImportState) (user fh : Nat) : Option ImportBatch :=
  st.batches.find? fun b => b.user_id == user && b.file_hash == fh

/-- Modelled from the spec (§4.2, §7 `DuplicateFile`, §8 scenarios; the
backend orchestrator is not among the sources): upload a file for an
identity.  A whole-file duplicate short-circuits before row-level work as a
no-op completed batch result with zero new rows, reporting the previous
batch's imported count as skipped duplicates; otherwise the rows are
de-duplicated row by row and a new completed batch row is recorded. -/
def uploadFile (st : ImportState) (user : Nat) (name : String)
    (bytes : List Nat) (rows : List RawRow) : ImportState × ImportBatch :=
  match findBatch st user (fileHash bytes) with
  | some prev =>
      (st, { user_id := user, file_name := name, file_hash := fileHash bytes
             transactions_imported := 0
             duplicates_skipped := prev.transactions_imported
             import_status := "completed" })
  | none =>
      let res := importRows user st rows
      let batch : ImportBatch :=
        { user_id := user, file_name := name, file_hash := fileHash bytes
          transactions_imported := res.2.1, duplicates_skipped := res.2.2
          import_status := "completed" }
      ({ batches := batch :: res.1.batches, txs := res.1.txs }, batch)

/-- The `UNIQUE(user_id, file_hash)` constraint (`init.sql` line 47) as a
state predicate: at most one batch per (identity, file hash). -/
def uniqBatches (st : ImportState) : Prop :=
  ∀ u fh, (st.batches.countP fun b => b.user_id == u && b.file_hash == fh) ≤ 1

/-- The `transactions.transaction_hash UNIQUE` constraint (`init.sql` line
94) as a state predicate: stored content hashes are pairwise distinct. -/
def nodupTxHashes (st : ImportState) : Prop :=
  (st.txs.map fun t => t.transaction_hash).Nodup

/-! ## Auto-tagging rule engine

`tagging_rules` (`init.sql` 185–203) holds user rules — a JSONB condition
tree, an array of tag ids, a priority, a `NUMERIC(3,2)` confidence and an
active flag; `tagging_rule_applications` (`init.sql` 210–215) is the audit
trail with one row per (rule, transaction) application.  The engine body
(`auto_tagger`) is not among the sources and is modelled from spec §4.4
step 1 and §9: conditions are a typed predicate tree over transaction
fields, and a rule with a recorded audit entry for a transaction is skipped
without re-evaluation. -/

/-- Modelled from the spec (§4.4, §9): a rule's condition tree —
equality / range / substring predicates over transaction fields (amount
sign and magnitude, operation type, title keyword, merchant category)
combined with AND / OR. -/
inductive Cond where
  | amountLt (bound : ℤ)
  | amountGt (bound : ℤ)
  | amountEq (v : ℤ)
  | opTypeIs (s : String)
  | titleHas (kw : String)
  | merchantCategoryIs (c : String)
  | and (a b : Cond)
  | or (a b : Cond)
deriving DecidableEq, Repr

/-- The transaction fields a rule condition can inspect. -/
structure TxView where
  id : Nat
  amount : ℤ
  operation_type : String
  title : String
  merchant_category : Option String
deriving DecidableEq, Repr

/-- Evaluate a condition tree against a transaction.  Substring search is
occurrence of the keyword in the title. -/
def evalCond (t : TxView) : Cond → Bool
  | .amountLt b => decide (t.amount < b)
  | .amountGt b => decide (b < t.amount)
  | .amountEq v => t.amount == v
  | .opTypeIs s => t.operation_type == s
  | .titleHas kw => (t.title.splitOn kw).length != 1
  | .merchantCategoryIs c => t.merchant_category == some c
  | .and a b => evalCond t a && evalCond t b
  | .or a b => evalCond t a || evalCond t b

/-- One row of `tagging_rules` (`init.sql` 185–203): id, priority,
confidence (hundredths), active flag, condition tree and the tag ids to
apply. -/
structure TaggingRule where
  id : Nat
  priority : ℤ
  confidence : ℤ
  is_active : Bool
  conditions : Cond
  tag_ids : List Nat
deriving DecidableEq, Repr

/-- A proposed (tag, confidence, rationale) tuple from the rules source of
§4.4, tagged with the proposing rule. -/
structure Proposal where
  tag_id : Nat
  confidence : ℤ
  rule_id : Nat
deriving DecidableEq, Repr

/-- Modelled from the spec (§4.4 step 1; the backend `auto_tagger` is not
among the sources): evaluate the user rules, given in priority order,
against one transaction.  An inactive rule is skipped; a rule with a
recorded `tagging_rule_applications` entry for this transaction is skipped
without evaluation; otherwise the rule's condition is evaluated and, on
match, its tag ids are proposed at the rule's confidence and the audit
entry `(rule, transaction)` is recorded.  Returns the proposals, the new
audit table, and the (rule, transaction) pairs whose condition was
evaluated in this run. -/
def runRulesOn (tx : TxView) :
    List TaggingRule → List (Nat × Nat) →
      List Proposal × List (Nat × Nat) × List (Nat × Nat)
  | [], audit => ([], audit, [])
  | r :: rest, audit =>
      if !r.is_active then runRulesOn tx rest audit
      else if audit.any fun e => e.1 == r.id && e.2 == tx.id then
        runRulesOn tx rest audit
      else if evalCond tx r.conditions then
        let res := runRulesOn tx rest ((r.id, tx.id) :: audit)
        (r.tag_ids.map (fun tg => ⟨tg, r.confidence, r.id⟩) ++ res.1,
          res.2.1, (r.id, tx.id) :: res.2.2)
      else
        let res := runRulesOn tx rest audit
        (res.1, res.2.1, (r.id, tx.id) :: res.2.2)

/-- Repeated runs of the engine against the same transaction, threading the
audit table through: the audit state after running each rule list in
turn. -/
def iterateRuns (tx : TxView) (ruleSets : List (List TaggingRule))
    (audit : List (Nat × Nat)) : List (Nat × Nat) :=
  ruleSets.foldl (fun a rules => (runRulesOn tx rules a).2.1) audit

/-! ## Merchant/store enrichment

The `transactions` enrichment columns are `merchant_id`,
`normalized_merchant_name`, `merchant_confidence` (`init.sql` 107–110) plus
`store_identifier`, `location_extracted`, `raw_merchant_text` and
`store_id` added by migration 002 (its lines 4–32).  The extractor body
(`merchant_extractor`) is not among the sources; the application of its
result to a transaction is modelled from spec §4.3: purely additive,
filling only previously-empty enrichment fields. -/

/-- A transaction row as enrichment sees it: the core columns it must not
touch and the enrichment columns of `init.sql` + migration 002 (empty =
SQL `NULL`). -/
structure TxRecord where
  id : Nat
  booking_date : String
  operation_type : String
  title : String
  amount : ℤ
  notes : Option String
  is_hidden : Bool
  merchant_id : Option Nat
  normalized_merchant_name : Option String
  merchant_confidence : Option ℤ
  store_id : Option Nat
  store_identifier : Option String
  location_extracted : Option String
deriving DecidableEq, Repr

/-- The §4.3 enrichment result: `{merchant reference | none, normalized
name, store reference | none, extracted location | none, confidence}`. -/
structure EnrichResult where
  merchant_id : Option Nat
  normalized_merchant_name : Option String
  merchant_confidence : Option ℤ
  store_id : Option Nat
  store_identifier : Option String
  location_extracted : Option String
deriving DecidableEq, Repr

/-- Keep a non-empty column, fill an empty one. -/
def fillEmpty {α : Type} : Option α → Option α → Option α
  | some v, _ => some v
  | none, new => new

/-- Modelled from the spec (§4.3; the backend `merchant_extractor` is not
among the sources): apply an enrichment result to a transaction — each
enrichment column is filled only when previously empty, and no other
column is written. -/
def applyEnrichment (t : TxRecord) (e : EnrichResult) : TxRecord :=
  { t with
    merchant_id := fillEmpty t.merchant_id e.merchant_id
    normalized_merchant_name :=
      fillEmpty t.normalized_merchant_name e.normalized_merchant_name
    merchant_confidence := fillEmpty t.merchant_confidence e.merchant_confidence
    store_id := fillEmpty t.store_id e.store_id
    store_identifier := fillEmpty t.store_identifier e.store_identifier
    location_extracted := fillEmpty t.location_extracted e.location_extracted }

/-! ## Frontend tag creation (`TagsPage.handleCreateTag`)

Embedded from the source (the `handleCreateTag` handler of the Tags page):

```js
if (!newTagName.trim()) return
createTagMutation.mutate({
  name: newTagName.toLowerCase().replace(/\s+/g, '-'),
  display_name: newTagDisplayName || newTagName,
  color: newTagColor,
  description: newTagDescription || undefined,
})
```

Strings are lists of Unicode code points.  `\s` is modelled by the common
JavaScript whitespace class (space, tab, LF, VT, FF, CR, NBSP, BOM); the
same class backs `trim()`.  `toLowerCase` is modelled on the ASCII range,
which the placeholder tag names use. -/

/-- One code point of JavaScript `toLowerCase` on the ASCII range. -/
def jsToLower (n : Nat) : Nat :=
  if 65 ≤ n ∧ n ≤ 90 then n + 32 else n

/-- The JavaScript `\s` whitespace class (common subset): space, tab, LF,
VT, FF, CR, NBSP, BOM. -/
def isJsWs (n : Nat) : Bool :=
  n == 32 || n == 9 || n == 10 || n == 11 || n == 12 || n == 13 ||
    n == 160 || n == 65279

/-- JavaScript `String.prototype.trim`: strip leading and trailing
whitespace. -/
def jsTrim (l : List Nat) : List Nat :=
  ((l.dropWhile isJsWs).reverse.dropWhile isJsWs).reverse

/-- JavaScript `replace(/\s+/g, '-')`: each maximal whitespace run becomes
one hyphen (code point 45). -/
def collapseWsRuns : List Nat → List Nat
  | [] => []
  | c :: rest =>
      if isJsWs c then 45 :: collapseWsRuns (rest.dropWhile isJsWs)
      else c :: collapseWsRuns rest
termination_by l => l.length
decreasing_by
  · have h : (rest.dropWhile isJsWs).length ≤ rest.length :=
      (List.dropWhile_sublist isJsWs).length_le
    simp only [List.length_cons]
    omega
  · simp only [List.length_cons]
    omega

/-- The payload `createTagMutation.mutate` is called with. -/
structure TagCreatePayload where
  name : List Nat
  display_name : List Nat
  color : List Nat
  description : Option (List Nat)
deriving DecidableEq, Repr

/-- The `handleCreateTag` click handler: `none` models the early return on
blank input, `some` the mutation payload. -/
def handleCreateTag (newTagName newTagDisplayName newTagColor
    newTagDescription : List Nat) : Option TagCreatePayload :=
  if jsTrim newTagName = [] then none
  else some
    { name := collapseWsRuns (newTagName.map jsToLower)
      display_name := if newTagDisplayName = [] then newTagName else newTagDisplayName
      color := newTagColor
      description := if newTagDescription = [] then none else some newTagDescription }

/-- The claim's wording, implemented independently of the source's
regex-replace order: walk the input once, lowercasing ordinary characters
and emitting one hyphen per whitespace run (the flag records whether the
previous character was whitespace). -/
def lowerHyphenAux : Bool → List Nat → List Nat
  | _, [] => []
  | prevWs, c :: rest =>
      if isJsWs c then
        if prevWs then lowerHyphenAux true rest
        else 45 :: lowerHyphenAux true rest
      else jsToLower c :: lowerHyphenAux false rest

/-- The claim's "input lowercased with each whitespace run replaced by a
hyphen". -/
def specLowerHyphen (l : List Nat) : List Nat :=
  lowerHyphenAux false l

/-! ## Ledger lemmas -/

/-- A false `linkPresent` means no row counts toward the pair. -/
theorem pairCount_eq_zero_of_not_present {s : LedgerState} {tx tag : Nat}
    (h : linkPresent s tx tag = false) : pairCount s tx tag = 0 := by
  simp only [linkPresent, List.any_eq_false] at h
  simp only [pairCount, List.countP_eq_zero]
  exact h

/-- Splitting a tag's row count along deletion of one pair's rows: the rows
kept by `removeTag`'s filter plus the rows it deletes that reference tag
`t` add back up to all rows referencing `t`. -/
theorem tagCount_filter_pair (links : List TagLink) (tx tag t : Nat) :
    ((links.filter fun l => !(l.transaction_id == tx && l.tag_id == tag)).countP
        fun l => l.tag_id == t)
      + (if t = tag
          then links.countP fun l => l.transaction_id == tx && l.tag_id == tag
          else 0)
      = links.countP fun l => l.tag_id == t := by
  induction links with
  | nil => simp
  | cons a l ih =>
    by_cases hpair : a.transaction_id = tx ∧ a.tag_id = tag
    · obtain ⟨h1, h2⟩ := hpair
      have hQ : (a.transaction_id == tx && a.tag_id == tag) = true := by simp [h1, h2]
      rw [List.filter_cons_of_neg (by simp [hQ])]
      by_cases ht : t = tag
      · subst ht
        rw [if_pos rfl] at ih ⊢
        rw [List.countP_cons_of_pos (fun x => x.transaction_id == tx && x.tag_id == t) l hQ,
          List.countP_cons_of_pos (fun x => x.tag_id == t) l
            (show (a.tag_id == t) = true by simp [h2])]
        omega
      · rw [if_neg ht] at ih ⊢
        rw [List.countP_cons_of_neg (fun x => x.tag_id == t) l
          (show ¬(a.tag_id == t) = true by
            simp only [beq_iff_eq, h2]
            exact fun hc => ht hc.symm)]
        omega
    · have hQ : (a.transaction_id == tx && a.tag_id == tag) = false := by
        apply Bool.eq_false_iff.mpr
        intro hc
        exact hpair ⟨eq_of_beq ((Bool.and_eq_true _ _).mp hc).1,
          eq_of_beq ((Bool.and_eq_true _ _).mp hc).2⟩
      rw [List.filter_cons_of_pos (by simp [hQ])]
      by_cases ht : t = tag
      · subst ht
        rw [if_pos rfl] at ih ⊢
        rw [List.countP_cons_of_neg (fun x => x.transaction_id == tx && x.tag_id == t) l
            (show ¬(a.transaction_id == tx && a.tag_id == t) = true by
              rw [hQ]; exact Bool.false_ne_true),
          List.countP_cons (fun x => x.tag_id == t) a,
          List.countP_cons (fun x => x.tag_id == t) a]
        omega
      · rw [if_neg ht] at ih ⊢
        rw [List.countP_cons (fun x => x.tag_id == t) a,
          List.countP_cons (fun x => x.tag_id == t) a]
        omega

/-- The `applyTag` call preserves the §3 usage-count invariant. -/
theorem usageInv_applyTag {s : LedgerState} (tx tag : Nat) (src : TagSource)
    (conf : Option ℤ) (h : usageInv s) : usageInv (applyTag s tx tag src conf) := by
  unfold applyTag
  by_cases hp : linkPresent s tx tag = true
  · rw [if_pos hp]; exact h
  · rw [if_neg hp]
    intro t
    show usageAfterInsert s.usage tag t
      = (List.countP (fun x => x.tag_id == t) (⟨tx, tag, src, conf⟩ :: s.links) : ℤ)
    have hh := h t
    unfold tagCount at hh
    unfold usageAfterInsert
    by_cases ht : t = tag
    · subst ht
      rw [if_pos rfl,
        List.countP_cons_of_pos (fun x => x.tag_id == t) s.links (beq_self_eq_true t)]
      omega
    · rw [if_neg ht,
        List.countP_cons_of_neg (fun x => x.tag_id == t) s.links
          (fun hc => ht (eq_of_beq hc).symm)]
      exact hh

/-- The `removeTag` call preserves the §3 usage-count invariant. -/
theorem usageInv_removeTag {s : LedgerState} (tx tag : Nat)
    (h : usageInv s) : usageInv (removeTag s tx tag) := by
  unfold removeTag
  by_cases hp : linkPresent s tx tag = true
  · rw [if_pos hp]
    intro t
    show usageAfterDelete s.usage tag (pairCount s tx tag) t
      = (List.countP (fun x => x.tag_id == t)
          (s.links.filter fun x => !(x.transaction_id == tx && x.tag_id == tag)) : ℤ)
    have hsplit := tagCount_filter_pair s.links tx tag t
    have hh := h t
    unfold tagCount at hh
    unfold usageAfterDelete pairCount
    by_cases ht : t = tag
    · subst ht
      rw [if_pos rfl] at hsplit ⊢
      omega
    · rw [if_neg ht] at hsplit ⊢
      omega
  · rw [if_neg hp]; exact h

/-- One ledger step preserves the usage-count invariant. -/
theorem usageInv_step {s : LedgerState} (op : LedgerOp)
    (h : usageInv s) : usageInv (stepLedger s op) := by
  cases op with
  | apply tx tag src conf => exact usageInv_applyTag tx tag src conf h
  | remove tx tag => exact usageInv_removeTag tx tag h

/-- Any sequence of ledger operations preserves the usage-count
invariant. -/
theorem usageInv_run {s : LedgerState} (ops : List LedgerOp)
    (h : usageInv s) : usageInv (runLedger s ops) := by
  induction ops generalizing s with
  | nil => exact h
  | cons op rest ih => exact ih (usageInv_step op h)

/-- An `applyTag` on an already-linked pair is a no-op. -/
theorem applyTag_present {s : LedgerState} {tx tag : Nat} (src : TagSource)
    (conf : Option ℤ) (h : linkPresent s tx tag = true) :
    applyTag s tx tag src conf = s := by
  unfold applyTag
  rw [if_pos h]

/-- An `applyTag` on an unlinked pair inserts the row and fires the trigger's
`INSERT` arm. -/
theorem applyTag_absent {s : LedgerState} {tx tag : Nat} (src : TagSource)
    (conf : Option ℤ) (h : linkPresent s tx tag = false) :
    applyTag s tx tag src conf
      = { links := ⟨tx, tag, src, conf⟩ :: s.links
          usage := usageAfterInsert s.usage tag } := by
  unfold applyTag
  rw [if_neg (by simp [h])]

/-- A `removeTag` on an unlinked pair is a no-op. -/
theorem removeTag_absent {s : LedgerState} {tx tag : Nat}
    (h : linkPresent s tx tag = false) : removeTag s tx tag = s := by
  unfold removeTag
  rw [if_neg (by simp [h])]

/-- After inserting the pair's row, the pair is present. -/
theorem linkPresent_applyTag_self {s : LedgerState} {tx tag : Nat}
    (src : TagSource) (conf : Option ℤ) (h : linkPresent s tx tag = false) :
    linkPresent (applyTag s tx tag src conf) tx tag = true := by
  rw [applyTag_absent src conf h]
  unfold linkPresent
  apply List.any_eq_true.mpr
  exact ⟨⟨tx, tag, src, conf⟩, List.mem_cons_self _ _, by simp⟩

/-- The `applyTag` call preserves the `UNIQUE(transaction_id, tag_id)` invariant. -/
theorem uniqPairs_applyTag {s : LedgerState} (tx tag : Nat) (src : TagSource)
    (conf : Option ℤ) (h : uniqPairs s) : uniqPairs (applyTag s tx tag src conf) := by
  by_cases hp : linkPresent s tx tag = true
  · rw [applyTag_present src conf hp]; exact h
  · have hp' : linkPresent s tx tag = false := Bool.eq_false_iff.mpr hp
    rw [applyTag_absent src conf hp']
    intro tx' tag'
    show (List.countP (fun x => x.transaction_id == tx' && x.tag_id == tag')
        (⟨tx, tag, src, conf⟩ :: s.links)) ≤ 1
    by_cases hm : tx = tx' ∧ tag = tag'
    · obtain ⟨htx, htg⟩ := hm
      subst htx; subst htg
      rw [List.countP_cons_of_pos (fun x => x.transaction_id == tx && x.tag_id == tag)
        s.links (by simp)]
      have h0 := pairCount_eq_zero_of_not_present hp'
      unfold pairCount at h0
      omega
    · rw [List.countP_cons_of_neg (fun x => x.transaction_id == tx' && x.tag_id == tag')
        s.links (by
          intro hc
          exact hm ⟨eq_of_beq ((Bool.and_eq_true _ _).mp hc).1,
            eq_of_beq ((Bool.and_eq_true _ _).mp hc).2⟩)]
      exact h tx' tag'

/-- The `removeTag` call preserves the `UNIQUE(transaction_id, tag_id)` invariant. -/
theorem uniqPairs_removeTag {s : LedgerState} (tx tag : Nat)
    (h : uniqPairs s) : uniqPairs (removeTag s tx tag) := by
  unfold removeTag
  by_cases hp : linkPresent s tx tag = true
  · rw [if_pos hp]
    intro tx' tag'
    calc (List.countP (fun x => x.transaction_id == tx' && x.tag_id == tag')
          (s.links.filter fun x => !(x.transaction_id == tx && x.tag_id == tag)))
        ≤ List.countP (fun x => x.transaction_id == tx' && x.tag_id == tag') s.links :=
          (List.filter_sublist s.links).countP_le _
      _ ≤ 1 := h tx' tag'
  · rw [if_neg hp]; exact h

/-- One ledger step preserves pair uniqueness. -/
theorem uniqPairs_step {s : LedgerState} (op : LedgerOp)
    (h : uniqPairs s) : uniqPairs (stepLedger s op) := by
  cases op with
  | apply tx tag src conf => exact uniqPairs_applyTag tx tag src conf h
  | remove tx tag => exact uniqPairs_removeTag tx tag h

/-- Any sequence of ledger operations preserves pair uniqueness. -/
theorem uniqPairs_run {s : LedgerState} (ops : List LedgerOp)
    (h : uniqPairs s) : uniqPairs (runLedger s ops) := by
  induction ops generalizing s with
  | nil => exact h
  | cons op rest ih => exact ih (uniqPairs_step op h)

/-- One confidence-well-formed ledger step preserves link confidence
well-formedness. -/
theorem confInv_step {s : LedgerState} (op : LedgerOp)
    (hs : confInv s = true) (hop : opConfOK op = true) :
    confInv (stepLedger s op) = true := by
  cases op with
  | apply tx tag src conf =>
    by_cases hp : linkPresent s tx tag = true
    · rw [stepLedger, applyTag_present src conf hp]; exact hs
    · rw [stepLedger, applyTag_absent src conf (Bool.eq_false_iff.mpr hp)]
      show (TagLink.mk tx tag src conf :: s.links).all confOK = true
      rw [List.all_cons]
      exact Bool.and_eq_true _ _ |>.mpr ⟨hop, hs⟩
  | remove tx tag =>
    rw [stepLedger]
    unfold removeTag
    by_cases hp : linkPresent s tx tag = true
    · rw [if_pos hp]
      show (s.links.filter fun x => !(x.transaction_id == tx && x.tag_id == tag)).all
        confOK = true
      unfold confInv at hs
      rw [List.all_eq_true] at hs ⊢
      exact fun l hl => hs l (List.mem_of_mem_filter hl)
    · rw [if_neg hp]; exact hs

/-- Any sequence of confidence-well-formed ledger operations preserves link
confidence well-formedness. -/
theorem confInv_run {s : LedgerState} (ops : List LedgerOp)
    (hs : confInv s = true) (hops : ∀ op ∈ ops, opConfOK op = true) :
    confInv (runLedger s ops) = true := by
  induction ops generalizing s with
  | nil => exact hs
  | cons op rest ih =>
    exact ih (confInv_step op hs (hops op (List.mem_cons_self _ _)))
      fun o ho => hops o (List.mem_cons_of_mem _ ho)

/-! ## Claims about the Tag Ledger -/

/-- Claim C1: for every tag, after any sequence of `applyTag` and
`removeTag` operations (inserts and deletes of `transaction_tags` rows,
each firing the `update_tag_usage_count` trigger), the tag's `usage_count`
equals the number of `transaction_tags` rows referencing that tag. -/
theorem C1_usage_count_equals_link_count (s : LedgerState) (ops : List LedgerOp)
    (h : usageInv s) :
    ∀ tag, (runLedger s ops).usage tag = (tagCount (runLedger s ops) tag : ℤ) :=
  usageInv_run ops h

theorem C1_usage_count_equals_link_count_witness :
    (runLedger .initial
        [.apply 1 7 .manual none, .apply 2 7 .auto_rule (some 90), .remove 1 7]).usage 7
      = (tagCount (runLedger .initial
          [.apply 1 7 .manual none, .apply 2 7 .auto_rule (some 90), .remove 1 7]) 7 : ℤ) :=
  C1_usage_count_equals_link_count LedgerState.initial
    [.apply 1 7 .manual none, .apply 2 7 .auto_rule (some 90), .remove 1 7]
    (fun _ => rfl) 7

/-- Claim C2, as frozen, quantifies over every state; it fails when the
pair is already linked — there both calls are no-ops and the usage count
rises by 0, not 1 (witnessed by the counterexample below), so the proved
form starts from a state where the pair is unlinked.

Claim C2 (amended): starting from a state where the (transaction, tag)
pair is unlinked, calling `applyTag` twice with the same pair leaves exactly one
`transaction_tags` row for the pair and the tag's `usage_count` increased
by exactly 1 (not 2) relative to the state before the first call — and,
regardless of provenance, every reachable state keeps at most one row per
(transaction, tag) pair. -/
theorem C2_applyTag_idempotent (s : LedgerState) (tx tag : Nat)
    (src src' : TagSource) (conf conf' : Option ℤ) (ops : List LedgerOp)
    (habs : linkPresent s tx tag = false) (huniq : uniqPairs s) :
    pairCount (applyTag (applyTag s tx tag src conf) tx tag src' conf') tx tag = 1
      ∧ (applyTag (applyTag s tx tag src conf) tx tag src' conf').usage tag
          = s.usage tag + 1
      ∧ uniqPairs (runLedger s ops) := by
  have hsecond := applyTag_present src' conf' (linkPresent_applyTag_self src conf habs)
  rw [hsecond, applyTag_absent src conf habs]
  refine ⟨?_, ?_, uniqPairs_run ops huniq⟩
  · show (List.countP (fun x => x.transaction_id == tx && x.tag_id == tag)
      (⟨tx, tag, src, conf⟩ :: s.links)) = 1
    rw [List.countP_cons_of_pos (fun x => x.transaction_id == tx && x.tag_id == tag)
      s.links (by simp)]
    have h0 := pairCount_eq_zero_of_not_present habs
    unfold pairCount at h0
    omega
  · show usageAfterInsert s.usage tag tag = s.usage tag + 1
    unfold usageAfterInsert
    rw [if_pos rfl]

/-- Claim C2, as frozen, is false at a concrete already-linked state:
transaction 1 already carries tag 2 with a consistent usage count of 1,
and applying the tag twice more leaves the count at 1, not 2. -/
theorem C2_applyTag_idempotent_counterexample :
    ¬((applyTag (applyTag
          { links := [⟨1, 2, .manual, none⟩]
            usage := fun t => if t = 2 then 1 else 0 } 1 2 .manual none)
        1 2 .manual none).usage 2
      = ({ links := [⟨1, 2, .manual, none⟩]
           usage := fun t => if t = 2 then 1 else 0 } : LedgerState).usage 2 + 1) := by
  decide

theorem C2_applyTag_idempotent_witness :
    pairCount (applyTag (applyTag .initial 1 2 .manual none) 1 2 .auto_nlp (some 80)) 1 2 = 1
      ∧ (applyTag (applyTag .initial 1 2 .manual none) 1 2 .auto_nlp (some 80)).usage 2
          = LedgerState.initial.usage 2 + 1
      ∧ uniqPairs (runLedger .initial [.apply 3 4 .manual none, .remove 3 4]) :=
  C2_applyTag_idempotent LedgerState.initial 1 2 .manual .auto_nlp none (some 80)
    [.apply 3 4 .manual none, .remove 3 4] rfl (fun _ _ => Nat.zero_le 1)

/-- Claim C5: `removeTag` on an unlinked (transaction, tag) pair leaves the
whole ledger state (links and every usage counter) unchanged, and from any
state satisfying the usage-count invariant no reachable state has a
negative usage counter. -/
theorem C5_removeTag_noop_no_negative_usage (s : LedgerState) (tx tag : Nat)
    (ops : List LedgerOp) (habs : linkPresent s tx tag = false)
    (hinv : usageInv s) :
    removeTag s tx tag = s ∧ ∀ t, 0 ≤ (runLedger s ops).usage t := by
  refine ⟨removeTag_absent habs, fun t => ?_⟩
  rw [usageInv_run ops hinv t]
  exact Int.natCast_nonneg _

theorem C5_removeTag_noop_no_negative_usage_witness :
    removeTag .initial 5 6 = LedgerState.initial
      ∧ ∀ t, 0 ≤ (runLedger .initial
          [.apply 1 2 .manual none, .remove 1 2, .remove 1 2]).usage t :=
  C5_removeTag_noop_no_negative_usage LedgerState.initial 5 6
    [.apply 1 2 .manual none, .remove 1 2, .remove 1 2] rfl (fun _ => rfl)

/-- Claim C8: in every state reachable by confidence-well-formed ledger
calls (as spec §3/§4.4 require of the auto-tagging engine), every
`transaction_tags` row with automatic provenance (`auto_rule`,
`auto_merchant`, `auto_nlp`) records a confidence in `[0,1]` (`0 ≤ c ≤ 100`
hundredths). -/
theorem C8_auto_confidence_in_unit_interval (s : LedgerState)
    (ops : List LedgerOp) (hs : confInv s = true)
    (hops : ∀ op ∈ ops, opConfOK op = true) :
    confInv (runLedger s ops) = true :=
  confInv_run ops hs hops

theorem C8_auto_confidence_in_unit_interval_witness :
    confInv (runLedger .initial
        [.apply 1 2 .auto_rule (some 90), .apply 1 3 .manual none,
          .apply 2 2 .auto_merchant (some 85), .remove 1 3]) = true :=
  C8_auto_confidence_in_unit_interval LedgerState.initial
    [.apply 1 2 .auto_rule (some 90), .apply 1 3 .manual none,
      .apply 2 2 .auto_merchant (some 85), .remove 1 3]
    rfl (by decide)

/-! ## Import pipeline lemmas -/

/-- Row-level import never touches the `import_batches` table. -/
theorem importRow_batches (user : Nat) (acc : ImportState × Nat × Nat)
    (r : RawRow) : (importRow user acc r).1.batches = acc.1.batches := by
  unfold importRow
  by_cases h : hashStored acc.1 (txHash r) = true
  · rw [if_pos h]
  · rw [if_neg h]

/-- Folding row-level import over a row list never touches
`import_batches`. -/
theorem foldl_importRow_batches (user : Nat) (rows : List RawRow)
    (acc : ImportState × Nat × Nat) :
    ((rows.foldl (importRow user) acc).1).batches = acc.1.batches := by
  induction rows generalizing acc with
  | nil => rfl
  | cons r rest ih => rw [List.foldl_cons, ih, importRow_batches]

/-- Row-level import preserves distinctness of stored content hashes: a row
is only persisted when its hash is absent. -/
theorem nodupTx_importRow (user : Nat) (acc : ImportState × Nat × Nat)
    (r : RawRow) (h : nodupTxHashes acc.1) : nodupTxHashes (importRow user acc r).1 := by
  unfold importRow
  by_cases hs : hashStored acc.1 (txHash r) = true
  · rw [if_pos hs]; exact h
  · rw [if_neg hs]
    show (List.map (fun t => t.transaction_hash)
      (⟨user, txHash r, r⟩ :: acc.1.txs)).Nodup
    rw [List.map_cons]
    refine List.nodup_cons.mpr ⟨?_, h⟩
    intro hmem
    obtain ⟨t, ht, hth⟩ := List.mem_map.mp hmem
    have hfalse : hashStored acc.1 (txHash r) = false := Bool.eq_false_iff.mpr hs
    unfold hashStored at hfalse
    exact absurd (beq_iff_eq.mpr hth) (List.any_eq_false.mp hfalse t ht)

/-- Folding row-level import preserves distinctness of stored content
hashes. -/
theorem nodupTx_foldl (user : Nat) (rows : List RawRow)
    (acc : ImportState × Nat × Nat) (h : nodupTxHashes acc.1) :
    nodupTxHashes ((rows.foldl (importRow user) acc).1) := by
  induction rows generalizing acc with
  | nil => exact h
  | cons r rest ih => exact ih _ (nodupTx_importRow user acc r h)

/-- When no batch matches an (identity, file hash) key, no row counts
toward it. -/
theorem countP_batches_zero {st : ImportState} {u fh : Nat}
    (h : findBatch st u fh = none) :
    (st.batches.countP fun b => b.user_id == u && b.file_hash == fh) = 0 := by
  unfold findBatch at h
  rw [List.find?_eq_none] at h
  exact List.countP_eq_zero.mpr h

/-! ## Claims about the import pipeline -/

/-- Claim C3: uploading file bytes identical to a previously
completed import for the same identity yields a batch result with
`transactions_imported = 0`, `duplicates_skipped` equal to the first
batch's imported count and `import_status = 'completed'`; and at row level
a row whose content hash is stored increments the duplicate counter and is
discarded, while an absent hash is persisted and increments the imported
counter. -/
theorem C3_duplicate_file_and_row_dedup (st0 st1 : ImportState) (user : Nat)
    (name name2 : String) (bytes : List Nat) (rows rows2 : List RawRow)
    (b1 : ImportBatch) (hnone : findBatch st0 user (fileHash bytes) = none)
    (h1 : uploadFile st0 user name bytes rows = (st1, b1)) :
    ((uploadFile st1 user name2 bytes rows2).2.transactions_imported = 0
      ∧ (uploadFile st1 user name2 bytes rows2).2.duplicates_skipped
          = b1.transactions_imported
      ∧ (uploadFile st1 user name2 bytes rows2).2.import_status = "completed")
    ∧ ∀ (acc : ImportState × Nat × Nat) (r : RawRow),
        (hashStored acc.1 (txHash r) = true →
          importRow user acc r = (acc.1, acc.2.1, acc.2.2 + 1))
        ∧ (hashStored acc.1 (txHash r) = false →
          importRow user acc r
            = ({ acc.1 with txs := ⟨user, txHash r, r⟩ :: acc.1.txs },
                acc.2.1 + 1, acc.2.2)) := by
  constructor
  · unfold uploadFile at h1
    rw [hnone] at h1
    obtain ⟨hst, hb⟩ := Prod.mk.injEq _ _ _ _ |>.mp h1
    subst hst
    subst hb
    have hfind : findBatch
        { batches :=
            { user_id := user, file_name := name, file_hash := fileHash bytes
              transactions_imported := (importRows user st0 rows).2.1
              duplicates_skipped := (importRows user st0 rows).2.2
              import_status := "completed" } :: (importRows user st0 rows).1.batches
          txs := (importRows user st0 rows).1.txs } user (fileHash bytes)
        = some
            { user_id := user, file_name := name, file_hash := fileHash bytes
              transactions_imported := (importRows user st0 rows).2.1
              duplicates_skipped := (importRows user st0 rows).2.2
              import_status := "completed" } := by
      unfold findBatch
      exact List.find?_cons_of_pos _ (by simp)
    unfold uploadFile
    rw [hfind]
    exact ⟨rfl, rfl, rfl⟩
  · intro acc r
    constructor
    · intro h
      unfold importRow
      rw [if_pos h]
    · intro h
      unfold importRow
      rw [if_neg (by simp [h])]

theorem C3_duplicate_file_and_row_dedup_witness :
    ((uploadFile
        (uploadFile .initial 1 "stmt.csv" [10, 20, 30]
          [⟨"2025-08-01", "2025-08-01", "CARD", "ZABKA 1234", "", "42", -1643,
            some 10000, "PLN"⟩]).1
        1 "stmt.csv" [10, 20, 30]
        [⟨"2025-08-01", "2025-08-01", "CARD", "ZABKA 1234", "", "42", -1643,
          some 10000, "PLN"⟩]).2.transactions_imported = 0
      ∧ (uploadFile
          (uploadFile .initial 1 "stmt.csv" [10, 20, 30]
            [⟨"2025-08-01", "2025-08-01", "CARD", "ZABKA 1234", "", "42", -1643,
              some 10000, "PLN"⟩]).1
          1 "stmt.csv" [10, 20, 30]
          [⟨"2025-08-01", "2025-08-01", "CARD", "ZABKA 1234", "", "42", -1643,
            some 10000, "PLN"⟩]).2.duplicates_skipped
        = (uploadFile .initial 1 "stmt.csv" [10, 20, 30]
            [⟨"2025-08-01", "2025-08-01", "CARD", "ZABKA 1234", "", "42", -1643,
              some 10000, "PLN"⟩]).2.transactions_imported
      ∧ (uploadFile
          (uploadFile .initial 1 "stmt.csv" [10, 20, 30]
            [⟨"2025-08-01", "2025-08-01", "CARD", "ZABKA 1234", "", "42", -1643,
              some 10000, "PLN"⟩]).1
          1 "stmt.csv" [10, 20, 30]
          [⟨"2025-08-01", "2025-08-01", "CARD", "ZABKA 1234", "", "42", -1643,
            some 10000, "PLN"⟩]).2.import_status = "completed")
    ∧ ∀ (acc : ImportState × Nat × Nat) (r : RawRow),
        (hashStored acc.1 (txHash r) = true →
          importRow 1 acc r = (acc.1, acc.2.1, acc.2.2 + 1))
        ∧ (hashStored acc.1 (txHash r) = false →
          importRow 1 acc r
            = ({ acc.1 with txs := ⟨1, txHash r, r⟩ :: acc.1.txs },
                acc.2.1 + 1, acc.2.2)) :=
  C3_duplicate_file_and_row_dedup ImportState.initial _ 1 "stmt.csv" "stmt.csv"
    [10, 20, 30]
    [⟨"2025-08-01", "2025-08-01", "CARD", "ZABKA 1234", "", "42", -1643,
      some 10000, "PLN"⟩]
    [⟨"2025-08-01", "2025-08-01", "CARD", "ZABKA 1234", "", "42", -1643,
      some 10000, "PLN"⟩]
    _ rfl rfl

/-- Claim C4: the transaction content hash is deterministic (identical
input rows hash identically across runs), depends only on the §3 immutable
identity fields — rows agreeing on dates, operation type, title,
counterparty, account and amount hash identically whatever their other
fields — and stays globally unique across stored transactions under
upload. -/
theorem C4_content_hash_deterministic_unique (st : ImportState) (u : Nat)
    (n : String) (bytes : List Nat) (rows : List RawRow) (r1 r2 r3 r4 : RawRow)
    (hrun : r1 = r2) (hfields : identityFields r3 = identityFields r4)
    (hnodup : nodupTxHashes st) :
    txHash r1 = txHash r2
      ∧ txHash r3 = txHash r4
      ∧ nodupTxHashes (uploadFile st u n bytes rows).1 := by
  refine ⟨congrArg txHash hrun, ?_, ?_⟩
  · show strDigest (canonicalOfFields (identityFields r3))
      = strDigest (canonicalOfFields (identityFields r4))
    rw [hfields]
  · unfold uploadFile
    cases hfind : findBatch st u (fileHash bytes) with
    | some prev => exact hnodup
    | none => exact nodupTx_foldl u rows (st, 0, 0) hnodup

theorem C4_content_hash_deterministic_unique_witness :
    txHash ⟨"2025-08-01", "2025-08-01", "CARD", "ZABKA 1234", "", "42", -1643,
        some 10000, "PLN"⟩
      = txHash ⟨"2025-08-01", "2025-08-01", "CARD", "ZABKA 1234", "", "42", -1643,
          some 10000, "PLN"⟩
    ∧ txHash ⟨"2025-08-01", "2025-08-01", "CARD", "ZABKA 1234", "", "42", -1643,
        some 10000, "PLN"⟩
      = txHash ⟨"2025-08-01", "2025-08-01", "CARD", "ZABKA 1234", "", "42", -1643,
          none, "EUR"⟩
    ∧ nodupTxHashes
        (uploadFile .initial 1 "stmt.csv" [10, 20, 30]
          [⟨"2025-08-01", "2025-08-01", "CARD", "ZABKA 1234", "", "42", -1643,
              some 10000, "PLN"⟩,
            ⟨"2025-08-01", "2025-08-01", "CARD", "ZABKA 1234", "", "42", -1643,
              none, "EUR"⟩]).1 :=
  C4_content_hash_deterministic_unique ImportState.initial 1 "stmt.csv"
    [10, 20, 30]
    [⟨"2025-08-01", "2025-08-01", "CARD", "ZABKA 1234", "", "42", -1643,
        some 10000, "PLN"⟩,
      ⟨"2025-08-01", "2025-08-01", "CARD", "ZABKA 1234", "", "42", -1643,
        none, "EUR"⟩]
    _ _ _ _ rfl rfl List.nodup_nil

/-- Claim C7: every upload preserves `UNIQUE(user_id, file_hash)` — at most
one batch per (identity, file hash) — and when a batch for these bytes
already exists for this identity, uploading them again is a no-op duplicate
batch: the state is unchanged and the short-circuit result is a completed
success with zero new rows. -/
theorem C7_one_batch_per_file_hash (st : ImportState) (user : Nat)
    (name : String) (bytes : List Nat) (rows : List RawRow)
    (huniq : uniqBatches st) :
    uniqBatches (uploadFile st user name bytes rows).1
      ∧ ∀ prev, findBatch st user (fileHash bytes) = some prev →
          (uploadFile st user name bytes rows).1 = st
            ∧ (uploadFile st user name bytes rows).2.transactions_imported = 0
            ∧ (uploadFile st user name bytes rows).2.import_status = "completed" := by
  constructor
  · unfold uploadFile
    cases hfind : findBatch st user (fileHash bytes) with
    | some prev => exact huniq
    | none =>
      intro u fh
      show (List.countP (fun b => b.user_id == u && b.file_hash == fh)
        ({ user_id := user, file_name := name, file_hash := fileHash bytes
           transactions_imported := (importRows user st rows).2.1
           duplicates_skipped := (importRows user st rows).2.2
           import_status := "completed" } :: (importRows user st rows).1.batches)) ≤ 1

      by_cases hm : user = u ∧ fileHash bytes = fh
      · obtain ⟨hu, hf⟩ := hm
        subst hu
        subst hf
        rw [List.countP_cons_of_pos (fun b : ImportBatch => b.user_id == user && b.file_hash == fileHash bytes)
          _ (by simp)]
        have h0 := countP_batches_zero hfind
        have hbatches : (importRows user st rows).1.batches = st.batches :=
          foldl_importRow_batches user rows (st, 0, 0)
        rw [hbatches]
        omega
      · rw [List.countP_cons_of_neg (fun b : ImportBatch => b.user_id == u && b.file_hash == fh) _
          (by
            intro hc
            exact hm ⟨eq_of_beq ((Bool.and_eq_true _ _).mp hc).1,
              eq_of_beq ((Bool.and_eq_true _ _).mp hc).2⟩)]
        have hbatches : (importRows user st rows).1.batches = st.batches :=
          foldl_importRow_batches user rows (st, 0, 0)
        rw [hbatches]
        exact huniq u fh
  · intro prev hfind
    unfold uploadFile
    rw [hfind]
    exact ⟨rfl, rfl, rfl⟩

theorem C7_one_batch_per_file_hash_witness :
    uniqBatches
        (uploadFile
          { batches := [{ user_id := 1, file_name := "stmt.csv"
                          file_hash := fileHash [10, 20, 30]
                          transactions_imported := 2, duplicates_skipped := 0
                          import_status := "completed" }]
            txs := [] } 1 "stmt.csv" [10, 20, 30] []).1
      ∧ ∀ prev,
          findBatch
              { batches := [{ user_id := 1, file_name := "stmt.csv"
                              file_hash := fileHash [10, 20, 30]
                              transactions_imported := 2, duplicates_skipped := 0
                              import_status := "completed" }]
                txs := [] } 1 (fileHash [10, 20, 30]) = some prev →
            (uploadFile
                { batches := [{ user_id := 1, file_name := "stmt.csv"
                                file_hash := fileHash [10, 20, 30]
                                transactions_imported := 2, duplicates_skipped := 0
                                import_status := "completed" }]
                  txs := [] } 1 "stmt.csv" [10, 20, 30] []).1
              = { batches := [{ user_id := 1, file_name := "stmt.csv"
                                file_hash := fileHash [10, 20, 30]
                                transactions_imported := 2, duplicates_skipped := 0
                                import_status := "completed" }]
                  txs := [] }
            ∧ (uploadFile
                { batches := [{ user_id := 1, file_name := "stmt.csv"
                                file_hash := fileHash [10, 20, 30]
                                transactions_imported := 2, duplicates_skipped := 0
                                import_status := "completed" }]
                  txs := [] } 1 "stmt.csv" [10, 20, 30] []).2.transactions_imported = 0
            ∧ (uploadFile
                { batches := [{ user_id := 1, file_name := "stmt.csv"
                                file_hash := fileHash [10, 20, 30]
                                transactions_imported := 2, duplicates_skipped := 0
                                import_status := "completed" }]
                  txs := [] } 1 "stmt.csv" [10, 20, 30] []).2.import_status = "completed" :=
  C7_one_batch_per_file_hash
    { batches := [{ user_id := 1, file_name := "stmt.csv"
                    file_hash := fileHash [10, 20, 30]
                    transactions_imported := 2, duplicates_skipped := 0
                    import_status := "completed" }]
      txs := [] } 1 "stmt.csv" [10, 20, 30] []
    (fun _ _ => Nat.le_of_lt_succ (Nat.lt_succ_of_le (List.countP_le_length _)))

/-! ## Rule engine lemmas -/

/-- The engine never deletes audit entries: anything recorded stays
recorded. -/
theorem audit_mono (tx : TxView) (rules : List TaggingRule)
    (audit : List (Nat × Nat)) {e : Nat × Nat} (h : e ∈ audit) :
    e ∈ (runRulesOn tx rules audit).2.1 := by
  induction rules generalizing audit with
  | nil => exact h
  | cons r rest ih =>
    unfold runRulesOn
    by_cases hact : (!r.is_active) = true
    · rw [if_pos hact]; exact ih audit h
    · rw [if_neg hact]
      by_cases hskip : (audit.any fun e => e.1 == r.id && e.2 == tx.id) = true
      · rw [if_pos hskip]; exact ih audit h
      · rw [if_neg hskip]
        by_cases hmatch : evalCond tx r.conditions = true
        · rw [if_pos hmatch]
          exact ih ((r.id, tx.id) :: audit) (List.mem_cons_of_mem _ h)
        · rw [if_neg hmatch]; exact ih audit h

/-- A rule whose audit entry for this transaction is already recorded is
neither evaluated in a run nor the source of any of the run's proposals. -/
theorem recorded_not_reevaluated (tx : TxView) (rid : Nat)
    (rules : List TaggingRule) (audit : List (Nat × Nat))
    (hmem : (rid, tx.id) ∈ audit) :
    (rid, tx.id) ∉ (runRulesOn tx rules audit).2.2
      ∧ ∀ p ∈ (runRulesOn tx rules audit).1, p.rule_id ≠ rid := by
  induction rules generalizing audit with
  | nil => exact ⟨List.not_mem_nil _, fun p hp => absurd hp (List.not_mem_nil _)⟩
  | cons r rest ih =>
    unfold runRulesOn
    by_cases hact : (!r.is_active) = true
    · rw [if_pos hact]; exact ih audit hmem
    · rw [if_neg hact]
      by_cases hskip : (audit.any fun e => e.1 == r.id && e.2 == tx.id) = true
      · rw [if_pos hskip]; exact ih audit hmem
      · rw [if_neg hskip]
        have hrid : r.id ≠ rid := by
          intro hr
          have : ((rid, tx.id).1 == r.id && (rid, tx.id).2 == tx.id) = true := by
            simp [hr]
          exact hskip (List.any_eq_true.mpr ⟨(rid, tx.id), hmem, this⟩)
        by_cases hmatch : evalCond tx r.conditions = true
        · rw [if_pos hmatch]
          have hrec := ih ((r.id, tx.id) :: audit) (List.mem_cons_of_mem _ hmem)
          refine ⟨?_, ?_⟩
          · intro hin
            rcases List.mem_cons.mp hin with hhd | htl
            · exact hrid (congrArg Prod.fst hhd).symm
            · exact hrec.1 htl
          · intro p hp
            rcases List.mem_append.mp hp with hmap | hrest
            · obtain ⟨tg, _, rfl⟩ := List.mem_map.mp hmap
              exact hrid
            · exact hrec.2 p hrest
        · rw [if_neg hmatch]
          have hrec := ih audit hmem
          refine ⟨?_, hrec.2⟩
          intro hin
          rcases List.mem_cons.mp hin with hhd | htl
          · exact hrid (congrArg Prod.fst hhd).symm
          · exact hrec.1 htl

/-- Audit entries survive any number of engine runs. -/
theorem audit_mono_iterate (tx : TxView) (ruleSets : List (List TaggingRule))
    (audit : List (Nat × Nat)) {e : Nat × Nat} (h : e ∈ audit) :
    e ∈ iterateRuns tx ruleSets audit := by
  induction ruleSets generalizing audit with
  | nil => exact h
  | cons rules rest ih => exact ih _ (audit_mono tx rules audit h)

/-- Claim C6: once a `tagging_rule_applications` audit entry keyed by
(rule, transaction) has been recorded, that rule is never evaluated again
for that transaction and its tags are never re-proposed, across any number
of further runs of the auto-tagging engine. -/
theorem C6_rule_evaluated_at_most_once (tx : TxView) (rid : Nat)
    (audit : List (Nat × Nat)) (ruleSets : List (List TaggingRule))
    (rules : List TaggingRule) (hmem : (rid, tx.id) ∈ audit) :
    (rid, tx.id) ∉ (runRulesOn tx rules (iterateRuns tx ruleSets audit)).2.2
      ∧ ∀ p ∈ (runRulesOn tx rules (iterateRuns tx ruleSets audit)).1,
          p.rule_id ≠ rid :=
  recorded_not_reevaluated tx rid rules (iterateRuns tx ruleSets audit)
    (audit_mono_iterate tx ruleSets audit hmem)

theorem C6_rule_evaluated_at_most_once_witness :
    ((5 : Nat), (9 : Nat)) ∉ (runRulesOn ⟨9, -60000, "CARD", "HOTEL X", none⟩
        [⟨5, 10, 90, true, .amountLt (-50000), [3]⟩]
        (iterateRuns ⟨9, -60000, "CARD", "HOTEL X", none⟩
          [[⟨5, 10, 90, true, .amountLt (-50000), [3]⟩]] [(5, 9)])).2.2
      ∧ ∀ p ∈ (runRulesOn ⟨9, -60000, "CARD", "HOTEL X", none⟩
          [⟨5, 10, 90, true, .amountLt (-50000), [3]⟩]
          (iterateRuns ⟨9, -60000, "CARD", "HOTEL X", none⟩
            [[⟨5, 10, 90, true, .amountLt (-50000), [3]⟩]] [(5, 9)])).1,
          p.rule_id ≠ 5 :=
  C6_rule_evaluated_at_most_once ⟨9, -60000, "CARD", "HOTEL X", none⟩ 5
    [(5, 9)] [[⟨5, 10, 90, true, .amountLt (-50000), [3]⟩]]
    [⟨5, 10, 90, true, .amountLt (-50000), [3]⟩]
    (List.mem_singleton.mpr rfl)

/-- Claim C9: enrichment is purely additive — it never overwrites a
non-empty merchant or store link (or any other non-empty enrichment
column), only fills enrichment columns that were empty, and leaves every
non-enrichment column of the transaction unchanged. -/
theorem C9_enrichment_purely_additive (t : TxRecord) (e : EnrichResult) :
    (∀ m, t.merchant_id = some m → (applyEnrichment t e).merchant_id = some m)
      ∧ (∀ s, t.store_id = some s → (applyEnrichment t e).store_id = some s)
      ∧ (∀ n, t.normalized_merchant_name = some n →
          (applyEnrichment t e).normalized_merchant_name = some n)
      ∧ (∀ c, t.merchant_confidence = some c →
          (applyEnrichment t e).merchant_confidence = some c)
      ∧ (∀ si, t.store_identifier = some si →
          (applyEnrichment t e).store_identifier = some si)
      ∧ (∀ loc, t.location_extracted = some loc →
          (applyEnrichment t e).location_extracted = some loc)
      ∧ (t.merchant_id = none → (applyEnrichment t e).merchant_id = e.merchant_id)
      ∧ (t.store_id = none → (applyEnrichment t e).store_id = e.store_id)
      ∧ (applyEnrichment t e).id = t.id
      ∧ (applyEnrichment t e).booking_date = t.booking_date
      ∧ (applyEnrichment t e).operation_type = t.operation_type
      ∧ (applyEnrichment t e).title = t.title
      ∧ (applyEnrichment t e).amount = t.amount
      ∧ (applyEnrichment t e).notes = t.notes
      ∧ (applyEnrichment t e).is_hidden = t.is_hidden := by
  refine ⟨fun m hm => ?_, fun s hs => ?_, fun n hn => ?_, fun c hc => ?_,
    fun si hsi => ?_, fun loc hloc => ?_, fun hm => ?_, fun hs => ?_,
    rfl, rfl, rfl, rfl, rfl, rfl, rfl⟩
  · show fillEmpty t.merchant_id e.merchant_id = some m
    rw [hm]; rfl
  · show fillEmpty t.store_id e.store_id = some s
    rw [hs]; rfl
  · show fillEmpty t.normalized_merchant_name e.normalized_merchant_name = some n
    rw [hn]; rfl
  · show fillEmpty t.merchant_confidence e.merchant_confidence = some c
    rw [hc]; rfl
  · show fillEmpty t.store_identifier e.store_identifier = some si
    rw [hsi]; rfl
  · show fillEmpty t.location_extracted e.location_extracted = some loc
    rw [hloc]; rfl
  · show fillEmpty t.merchant_id e.merchant_id = e.merchant_id
    rw [hm]; rfl
  · show fillEmpty t.store_id e.store_id = e.store_id
    rw [hs]; rfl

theorem C9_enrichment_purely_additive_witness :
    (applyEnrichment
        ⟨7, "2025-08-01", "CARD", "ZABKA 1234", -1643, some "note", false,
          some 11, some "Zabka", some 95, none, none, none⟩
        ⟨some 99, some "Other", some 10, some 4, some "1234", some "WARSZAWA"⟩).merchant_id
      = some 11
    ∧ (applyEnrichment
        ⟨7, "2025-08-01", "CARD", "ZABKA 1234", -1643, some "note", false,
          some 11, some "Zabka", some 95, none, none, none⟩
        ⟨some 99, some "Other", some 10, some 4, some "1234", some "WARSZAWA"⟩).store_id
      = some 4
    ∧ (applyEnrichment
        ⟨7, "2025-08-01", "CARD", "ZABKA 1234", -1643, some "note", false,
          some 11, some "Zabka", some 95, none, none, none⟩
        ⟨some 99, some "Other", some 10, some 4, some "1234", some "WARSZAWA"⟩).title
      = "ZABKA 1234" :=
  have h := C9_enrichment_purely_additive
    ⟨7, "2025-08-01", "CARD", "ZABKA 1234", -1643, some "note", false,
      some 11, some "Zabka", some 95, none, none, none⟩
    ⟨some 99, some "Other", some 10, some 4, some "1234", some "WARSZAWA"⟩
  ⟨h.1 11 rfl, h.2.2.2.2.2.2.2.1 rfl, h.2.2.2.2.2.2.2.2.2.2.2.1⟩

/-! ## Frontend lemmas -/

/-- ASCII lowercasing never creates or destroys whitespace. -/
theorem isJsWs_jsToLower (n : Nat) : isJsWs (jsToLower n) = isJsWs n := by
  unfold jsToLower
  by_cases h : 65 ≤ n ∧ n ≤ 90
  · rw [if_pos h]
    obtain ⟨h1, h2⟩ := h
    have ha : isJsWs (n + 32) = false := by
      simp only [isJsWs, Bool.or_eq_false_iff, beq_eq_false_iff_ne, ne_eq]
      omega
    have hb : isJsWs n = false := by
      simp only [isJsWs, Bool.or_eq_false_iff, beq_eq_false_iff_ne, ne_eq]
      omega
    rw [ha, hb]
  · rw [if_neg h]

/-- Inside a whitespace run the walker just drops the run's remainder. -/
theorem lowerHyphenAux_true (l : List Nat) :
    lowerHyphenAux true l = lowerHyphenAux false (l.dropWhile isJsWs) := by
  induction l with
  | nil => rfl
  | cons c rest ih =>
    by_cases h : isJsWs c = true
    · rw [List.dropWhile_cons_of_pos h]
      show (if isJsWs c then
          (if true = true then lowerHyphenAux true rest
            else 45 :: lowerHyphenAux true rest)
          else jsToLower c :: lowerHyphenAux false rest)
        = lowerHyphenAux false (rest.dropWhile isJsWs)
      rw [if_pos h, if_pos rfl]
      exact ih
    · rw [List.dropWhile_cons_of_neg h]
      show (if isJsWs c then
          (if true = true then lowerHyphenAux true rest
            else 45 :: lowerHyphenAux true rest)
          else jsToLower c :: lowerHyphenAux false rest)
        = lowerHyphenAux false (c :: rest)
      have hR : lowerHyphenAux false (c :: rest)
          = jsToLower c :: lowerHyphenAux false rest := by
        show (if isJsWs c then
            (if false = true then lowerHyphenAux true rest
              else 45 :: lowerHyphenAux true rest)
            else jsToLower c :: lowerHyphenAux false rest) = _
        rw [if_neg h]
      rw [if_neg h, hR]

/-- Lowercase-then-collapse equals the single-pass walker (fuel-indexed
strong induction: collapsing recurses on a `dropWhile` suffix). -/
theorem collapseWsRuns_map_eq (n : Nat) : ∀ l : List Nat, l.length ≤ n →
    collapseWsRuns (l.map jsToLower) = lowerHyphenAux false l := by
  induction n with
  | zero =>
    intro l hl
    have : l = [] := List.length_eq_zero.mp (Nat.le_zero.mp hl)
    subst this
    simp [collapseWsRuns, lowerHyphenAux]
  | succ n ih =>
    intro l hl
    match l with
    | [] => simp [collapseWsRuns, lowerHyphenAux]
    | c :: rest =>
      rw [List.map_cons]
      simp only [List.length_cons] at hl
      unfold collapseWsRuns
      by_cases h : isJsWs c = true
      · have hlow : isJsWs (jsToLower c) = true := by rw [isJsWs_jsToLower]; exact h
        rw [if_pos hlow, List.dropWhile_map]
        have hpred : (isJsWs ∘ jsToLower) = isJsWs := funext isJsWs_jsToLower
        rw [hpred]
        have hle : (rest.dropWhile isJsWs).length ≤ rest.length :=
          (List.dropWhile_sublist isJsWs).length_le
        rw [ih (rest.dropWhile isJsWs) (by omega)]
        have hR : lowerHyphenAux false (c :: rest)
            = 45 :: lowerHyphenAux true rest := by
          show (if isJsWs c then
              (if false = true then lowerHyphenAux true rest
                else 45 :: lowerHyphenAux true rest)
              else jsToLower c :: lowerHyphenAux false rest) = _
          rw [if_pos h, if_neg Bool.false_ne_true]
        rw [hR, lowerHyphenAux_true]
      · have hlow : isJsWs (jsToLower c) = false := by
          rw [isJsWs_jsToLower]; exact Bool.eq_false_iff.mpr h
        rw [if_neg (by simp [hlow])]
        rw [ih rest (by omega)]
        show _ = (if isJsWs c then
            (if false = true then lowerHyphenAux true rest
              else 45 :: lowerHyphenAux true rest)
            else jsToLower c :: lowerHyphenAux false rest)
        rw [if_neg h]

/-- The handler's lowercase-then-regex-replace computes exactly the claim's
lowercase-with-hyphenated-whitespace-runs. -/
theorem collapseWsRuns_map (l : List Nat) :
    collapseWsRuns (l.map jsToLower) = specLowerHyphen l :=
  collapseWsRuns_map_eq l.length l (Nat.le_refl _)

/-- Claim C10: with blank input `handleCreateTag` submits nothing; with
non-blank input it submits the input name lowercased with each whitespace
run replaced by a hyphen, and the entered display name, falling back to
the raw input name when the display name is empty. -/
theorem C10_handleCreateTag_payload (nm dn color desc : List Nat) :
    (jsTrim nm = [] → handleCreateTag nm dn color desc = none)
      ∧ (jsTrim nm ≠ [] →
          handleCreateTag nm dn color desc
            = some { name := specLowerHyphen nm
                     display_name := if dn = [] then nm else dn
                     color := color
                     description := if desc = [] then none else some desc }) := by
  constructor
  · intro h
    unfold handleCreateTag
    rw [if_pos h]
  · intro h
    unfold handleCreateTag
    rw [if_neg h, collapseWsRuns_map]

theorem C10_handleCreateTag_payload_witness :
    handleCreateTag [80, 101, 116, 32, 32, 70, 111, 111, 100] [] [35, 51] []
      = some { name := [112, 101, 116, 45, 102, 111, 111, 100]
               display_name := [80, 101, 116, 32, 32, 70, 111, 111, 100]
               color := [35, 51]
               description := none } :=
  ((C10_handleCreateTag_payload [80, 101, 116, 32, 32, 70, 111, 111, 100]
    [] [35, 51] []).2 (by decide)).trans (by decide)

end FinanceManager
